import Mathlib

/-! Overview.

Verification development for the mindarmour fuzz-testing engine and the
membership-inference evaluation helper.

The Python source is shallowly embedded:
pixel samples and label vectors are lists of rationals, numpy reductions
(L0 norm, L-infinity norm, argmax, sums) are explicit list functions,
exceptions become `Except String`, and the random draws of `random.choice`
become explicit oracle streams that the theorems quantify over.  External
collaborators (the target model `predict`, the `ModelCoverageMetrics`
engine and the image/attack transform objects, which live outside the
embedded sources) are abstracted as parameters, exactly as the spec treats
them: narrow interfaces consumed by the orchestrator.
-/

/-- A seed (or mutant) as handled by `Fuzzer.fuzzing`: the Python value is the
list `[image_data, label, only_pixel_trans_flag]`; the flag is the integer
appended by `fuzzing` (`seed.append(0)`) and updated in `_metamorphic_mutate`. -/
structure Seed where
  sample : List ℚ
  label : List ℚ
  flag : ℕ
deriving DecidableEq

instance : Inhabited Seed := ⟨⟨[], [], 0⟩⟩

/-- One entry of `mutate_config`: the dict with keys `method` and `params`,
where `params` maps a parameter name to the list of candidate values.  The
embedding types the values as rationals; attack-specific parameter payloads
(bounds tuples, norm-level strings) are only inspected by
`_check_attack_params`, which is abstracted below. -/
structure Strategy where
  method : String
  params : List (String × List ℚ)
deriving DecidableEq

/-- Embedded `Fuzzer._pixel_value_trans_list`. -/
def pixel_value_trans_list : List String := ["Contrast", "Brightness", "Blur", "Noise"]

/-- Embedded `Fuzzer._affine_trans_list`. -/
def affine_trans_list : List String := ["Translate", "Scale", "Shear", "Rotate"]

/-- Embedded `Fuzzer._attacks_list`. -/
def attacks_list : List String := ["FGSM", "PGD", "MDIIM"]

/-- The keys of `Fuzzer._strategies`. -/
def strategies_keys : List String :=
  ["Contrast", "Brightness", "Blur", "Noise", "Translate", "Scale", "Shear",
   "Rotate", "FGSM", "PGD", "MDIIM"]

/-- The flattened elementwise difference `np.array(seed - mutate_sample).flatten()`
computed by `_is_trans_valid` (numpy elementwise subtraction of two
equal-shape arrays). -/
def seedDiff (seed mutate_sample : List ℚ) : List ℚ :=
  List.zipWith (fun a b => a - b) seed mutate_sample

/-- Embedded `np.linalg.norm(diff, ord=0)`: the number of nonzero entries. -/
def l0Norm (xs : List ℚ) : ℕ :=
  (xs.filter (fun x => decide (x ≠ 0))).length

/-- Embedded `np.linalg.norm(diff, ord=np.inf)`: the maximum absolute entry. -/
def linfNorm (xs : List ℚ) : ℚ :=
  (xs.map (fun x => |x|)).foldr max 0

/-- Embedded `_is_trans_valid` from `fuzzing.py`: `pixels_change_rate = 0.02`,
`pixel_value_change_rate = 0.2`; if the L0 norm of the diff exceeds
`0.02 * size` the sample is valid when the L-infinity norm is below 256,
otherwise it is valid when the L-infinity norm is below `0.2 * 255`. -/
def _is_trans_valid (seed mutate_sample : List ℚ) : Bool :=
  let diff := seedDiff seed mutate_sample
  let size := diff.length
  if (l0Norm diff : ℚ) > (2 / 100) * (size : ℚ) then
    decide (linfNorm diff < 256)
  else
    decide (linfNorm diff < (2 / 10) * 255)

/-- Embedded `_coverage_gains` from `fuzzing.py`: elementwise difference of the
coverage sequence against `[0] + coverages[:-1]`. -/
def _coverage_gains (coverages : List ℚ) : List ℚ :=
  List.zipWith (fun a b => a - b) coverages (0 :: coverages.dropLast)

/-- Embedded `_eval_info` from `membership_inference.py`.  Predictions and ground
truth are 0/1 integer vectors; `pred & truth` is numpy bitwise and,
`np.sum(pred == truth)` counts coordinatewise matches. -/
def _eval_info (pred truth : List ℕ) (option : String) : Except String ℚ :=
  if pred.length = 0 ∨ truth.length = 0 then
    .error "Size of pred or truth is 0."
  else if option = "accuracy" then
    .ok (((List.zipWith (fun a b => if a = b then 1 else 0) pred truth).sum : ℚ) / (pred.length : ℚ))
  else if option = "precision" then
    if pred.sum = 0 then .ok (-1)
    else .ok (((List.zipWith Nat.land pred truth).sum : ℚ) / (pred.sum : ℚ))
  else if option = "recall" then
    if truth.sum = 0 then .ok (-1)
    else .ok (((List.zipWith Nat.land pred truth).sum : ℚ) / (truth.sum : ℚ))
  else
    .error ("The metric value " ++ option ++ " is undefined.")

/-- The `eval_metrics` argument of `Fuzzer.fuzzing`: either a Python string or
a list/tuple of metric names. -/
inductive EvalArg where
  | str (s : String)
  | lst (l : List String)
deriving DecidableEq

/-- The checked value `eval_metrics_` produced by `_check_eval_metrics`:
either the string `auto` or a list of validated metric names. -/
inductive EvalSel where
  | auto
  | lst (l : List String)
deriving DecidableEq

/-- Embedded `available_metrics` inside `_check_eval_metrics`. -/
def available_metrics : List String :=
  ["accuracy", "attack_success_rate", "kmnc", "nbc", "snac"]

/-- The validation loop of `_check_eval_metrics` over a list argument: each
element must be an available metric and is appended lowercased. -/
def checkMetricsList : List String → Except String (List String)
  | [] => .ok []
  | e :: rest =>
    if e ∈ available_metrics then
      match checkMetricsList rest with
      | .error msg => .error msg
      | .ok r => .ok (e.toLower :: r)
    else
      .error "metric in list eval_metrics must be in available_metrics"

/-- Embedded `_check_eval_metrics` from `fuzzing.py`.  A string argument must be the
literal `auto`; a list/tuple argument is validated elementwise. -/
def _check_eval_metrics : EvalArg → Except String EvalSel
  | .str s =>
    if s = "auto" then .ok .auto
    else .error "the value of eval_metrics must be auto if its type is str"
  | .lst l =>
    match checkMetricsList l with
    | .error msg => .error msg
    | .ok r => .ok (.lst r)

/-- The check `for key in params.keys(): check_param_type(str(key), params[key], list)`
performed by `_check_mutate_config` for non-attack methods.  In this typed
embedding every parameter payload is a `List`, so the check always passes;
it is kept to mirror the traversal in the source. -/
def checkParamsAreLists (params : List (String × List ℚ)) : Except String Unit :=
  match params with
  | [] => .ok ()
  | _ :: rest => checkParamsAreLists rest

/-- The per-entry loop of `_check_mutate_config`: validates each config dict
(the key-set check is discharged by the `Strategy` structure itself), requires
the method to be a known strategy, tracks whether a pixel-value transform
method occurred, and runs the per-method parameter check.  `attackCheck`
abstracts `_check_attack_params`, whose helper validators
(`check_param_multi_types`, `check_param_in_range`, `check_norm_level`)
live outside the embedded sources; the theorems below hold for every
behaviour of that checker. -/
def checkConfigLoop (attackCheck : String → List (String × List ℚ) → Except String Unit) :
    List Strategy → Bool → Except String Bool
  | [], hasPixel => .ok hasPixel
  | c :: rest, hasPixel =>
    if c.method ∈ strategies_keys then
      let hasPixel := hasPixel || decide (c.method ∈ pixel_value_trans_list)
      match (if c.method ∈ attacks_list then attackCheck c.method c.params
             else checkParamsAreLists c.params) with
      | .error msg => .error msg
      | .ok _ => checkConfigLoop attackCheck rest hasPixel
    else
      .error "Config methods must be in the supported strategies"

/-- Embedded `Fuzzer._check_mutate_config`: runs the per-entry loop and finally raises
unless at least one configured method is a pixel-value transform. -/
def _check_mutate_config (attackCheck : String → List (String × List ℚ) → Except String Unit)
    (mutate_config : List Strategy) : Except String (List Strategy) :=
  match checkConfigLoop attackCheck mutate_config false with
  | .error msg => .error msg
  | .ok true => .ok mutate_config
  | .ok false =>
    .error "mutate methods in mutate_config should at least have one pixel value transform"

/-- The strategy-selection step at the top of each `_metamorphic_mutate`
attempt: `strategy = choice(mutate_config)` followed, for a pixel-only seed,
by redrawing while the drawn method is not a pixel-value transform.  The
random draws of one attempt are modelled as the list `ds`; for a pixel-only
seed the loop stops at the first pixel-value draw (`none` models the case in
which the modelled draw sequence never produces one, where the Python loop
would keep spinning). -/
def selectStrategyDraws (onlyPixel : Bool) (ds : List Strategy) : Option Strategy :=
  if onlyPixel then ds.find? (fun s => decide (s.method ∈ pixel_value_trans_list))
  else ds.head?

/-- One attempt of the `for _ in range(mutate_num_per_seed)` loop of
`_metamorphic_mutate`.  `applyT` abstracts the application of the selected
transform or attack to `seed[0]` (including the sampling of
`selected_param` and the Shear special case), since the transform objects
live outside the embedded sources.  Returns `none` when strategy selection
diverges; otherwise `some none` for an attempt whose mutant fails
`_is_trans_valid`, and `some (some (child, method))` for a valid mutant. -/
def mmAttempt (applyT : Strategy → List ℚ → List ℚ) (seed : Seed) (ds : List Strategy) :
    Option (Option (Seed × String)) :=
  match selectStrategyDraws (seed.flag ≠ 0) ds with
  | none => none
  | some strat =>
    let method := strat.method
    let mutate_sample := applyT strat seed.sample
    let only_pixel_trans := if method ∈ pixel_value_trans_list then seed.flag else 1
    let child : Seed := ⟨mutate_sample, seed.label, only_pixel_trans⟩
    if _is_trans_valid seed.sample mutate_sample then some (some (child, method))
    else some none

/-- The attempt loop of `_metamorphic_mutate`, accumulating the valid mutants
and their strategies in order.  `draws k` is the draw sequence of attempt
`k`; `n` counts the remaining attempts. -/
def mmLoop (applyT : ℕ → Strategy → List ℚ → List ℚ) (draws : ℕ → List Strategy) (seed : Seed) :
    ℕ → ℕ → List Seed × List (Option String) → Option (List Seed × List (Option String))
  | 0, _, acc => some acc
  | n + 1, k, acc =>
    match mmAttempt (applyT k) seed (draws k) with
    | none => none
    | some none => mmLoop applyT draws seed n (k + 1) acc
    | some (some (child, method)) =>
      mmLoop applyT draws seed n (k + 1) (acc.1 ++ [child], acc.2 ++ [some method])

/-- Embedded `Fuzzer._metamorphic_mutate`: runs `mutate_num_per_seed` attempts and, when
no mutant passed the validity check, falls back to the unmodified seed with
strategy `None`. -/
def _metamorphic_mutate (applyT : ℕ → Strategy → List ℚ → List ℚ)
    (draws : ℕ → List Strategy) (seed : Seed) (mutate_num_per_seed : ℕ) :
    Option (List Seed × List (Option String)) :=
  match mmLoop applyT draws seed mutate_num_per_seed 0 ([], []) with
  | none => none
  | some (mutate_samples, mutate_strategies) =>
    if mutate_samples.isEmpty then some ([seed], [none])
    else some (mutate_samples, mutate_strategies)

/-- Modelled from the spec: the `ModelCoverageMetrics` engine (its source is
not among the embedded files).  Per the spec it is a mutable accumulator:
`calculate_coverage(samples)` folds a batch into the hit-state, and
`get_kmnc`/`get_nbc`/`get_snac` read coverage fractions from the current
state.  The state type `σ` and the four operations are abstract. -/
structure CovEngine (σ : Type) where
  calcCov : σ → List (List ℚ) → σ
  kmnc : σ → ℚ
  nbc : σ → ℚ
  snac : σ → ℚ

/-- The index loop of `_get_coverages_and_predict`: for each index the prefix
`samples[:index+1]` is folded into the engine and, per the requested metric,
one coverage value is appended.  `pfx` is the prefix of already processed
samples. -/
def gcapCov {σ : Type} (E : CovEngine σ) (coverage_metric : String) :
    List (List ℚ) → List (List ℚ) → σ → List ℚ × σ
  | _, [], st => ([], st)
  | pfx, s :: rest, st =>
    let pfx := pfx ++ [s]
    let st := E.calcCov st pfx
    let here :=
      (if coverage_metric = "KMNC" then [E.kmnc st] else []) ++
      (if coverage_metric = "NBC" then [E.nbc st] else []) ++
      (if coverage_metric = "SNAC" then [E.snac st] else [])
    let (covs, stF) := gcapCov E coverage_metric pfx rest st
    (here ++ covs, stF)

/-- Embedded `Fuzzer._get_coverages_and_predict`: batch model predictions (the target
model is abstracted as the per-sample function `predictOne`) together with
the cumulative coverage values of the sample prefixes. -/
def _get_coverages_and_predict {σ : Type} (E : CovEngine σ) (predictOne : List ℚ → List ℚ)
    (st : σ) (coverage_metric : String) (mutate_samples : List Seed) :
    List ℚ × List (List ℚ) × σ :=
  let samples := mutate_samples.map (fun s => s.sample)
  let predictions := samples.map predictOne
  let (coverages, stF) := gcapCov E coverage_metric [] samples st
  (coverages, predictions, stF)

/-- Helper for `np.argmax(v)` on one row: index of the first maximal entry. -/
def argmaxIdxAux : List ℚ → ℕ → ℕ → ℚ → ℕ
  | [], _, best, _ => best
  | x :: xs, i, best, bestV =>
    if x > bestV then argmaxIdxAux xs (i + 1) i x
    else argmaxIdxAux xs (i + 1) best bestV

/-- Embedded `np.argmax` over one nonempty vector (first maximal index). -/
def argmaxIdx : List ℚ → ℕ
  | [] => 0
  | x :: xs => argmaxIdxAux xs 1 0 x

/-- Rowwise `np.argmax`: an empty row raises an empty-reduction error. -/
def argmaxRowsLoop : List (List ℚ) → Except String (List ℕ)
  | [] => .ok []
  | r :: rest =>
    if r.isEmpty then .error "np.argmax: attempt to get argmax of an empty sequence"
    else
      match argmaxRowsLoop rest with
      | .error msg => .error msg
      | .ok is => .ok (argmaxIdx r :: is)

/-- Embedded `np.argmax(np.asarray(rows), axis=1)`: on an empty list the array is
one-dimensional and numpy raises an axis error; otherwise the rowwise
first-maximum indices. -/
def argmaxRows (rows : List (List ℚ)) : Except String (List ℕ) :=
  if rows.isEmpty then .error "np.argmax: axis 1 is out of bounds for array of dimension 1"
  else argmaxRowsLoop rows

/-- The accumulated run output of `Fuzzer.fuzzing`: the four parallel lists. -/
structure RunAcc where
  fuzzSamples : List (List ℚ)
  trueLabels : List (List ℚ)
  fuzzPreds : List (List ℚ)
  fuzzStrategies : List (Option String)
deriving DecidableEq

/-- The metrics report of `_evaluate`: an association list from metric name
to value, where the value `none` is Python `None`. -/
abbrev Report : Type := List (String × Option ℚ)

/-- Dictionary lookup in a metrics report. -/
def reportLookup (name : String) : Report → Option (Option ℚ)
  | [] => none
  | (k, v) :: rest => if k = name then some v else reportLookup name rest

/-- The vector `temp = np.argmax(true_labels, axis=1) == np.argmax(fuzz_preds, axis=1)`
computed at the top of `_evaluate`. -/
def matchVector (acc : RunAcc) : Except String (List Bool) :=
  match argmaxRows acc.trueLabels, argmaxRows acc.fuzzPreds with
  | .error msg, _ => .error msg
  | .ok _, .error msg => .error msg
  | .ok ti, .ok pi => .ok (List.zipWith (fun a b => decide (a = b)) ti pi)

/-- Whether a recorded strategy is an adversarial attack:
`elem in self._attacks_list` (`None` entries are not attacks). -/
def strategyIsAttack : Option String → Bool
  | none => false
  | some m => decide (m ∈ attacks_list)

/-- The mask selection `temp = temp[cond]` in the attack-success-rate branch:
keep the match bits of the samples whose strategy is an attack. -/
def attackFilter (temp : List Bool) (strategies : List (Option String)) : List Bool :=
  (temp.zip strategies).filterMap (fun p => if strategyIsAttack p.2 then some p.1 else none)

/-- The attack-success-rate value of `_evaluate`: `1 - sum/size` of the
filtered match vector when `temp.any()` holds there, `None` otherwise. -/
def attackSuccessRate (temp : List Bool) (strategies : List (Option String)) : Option ℚ :=
  if (attackFilter temp strategies).any id then
    some (1 - ((attackFilter temp strategies).count true : ℚ) /
      ((attackFilter temp strategies).length : ℚ))
  else none

/-- The accuracy value of `_evaluate`: `sum/size` of the match vector when
`temp.any()` holds, `0` otherwise. -/
def accuracyValue (temp : List Bool) : ℚ :=
  if temp.any id then (temp.count true : ℚ) / (temp.length : ℚ) else 0

/-- The test `metrics == 'auto' or name in metrics` guarding each branch of
`_evaluate`. -/
def evalHas (metrics : EvalSel) (name : String) : Bool :=
  match metrics with
  | .auto => true
  | .lst l => decide (name ∈ l)

/-- Embedded `Fuzzer._evaluate`: computes the match vector (numpy raises on empty
inputs), then builds the report in branch order — accuracy, attack success
rate, one shared `calculate_coverage` call over all fuzz samples, and the
three coverage reads. -/
def _evaluate {σ : Type} (E : CovEngine σ) (st : σ) (metrics : EvalSel) (acc : RunAcc) :
    Except String Report :=
  match matchVector acc with
  | .error msg => .error msg
  | .ok temp =>
    let rep1 : Report :=
      if evalHas metrics "accuracy" then [("Accuracy", some (accuracyValue temp))] else []
    let rep2 : Report :=
      if evalHas metrics "attack_success_rate" then
        [("Attack_success_rate", attackSuccessRate temp acc.fuzzStrategies)]
      else []
    let st :=
      if evalHas metrics "kmnc" || evalHas metrics "nbc" || evalHas metrics "snac" then
        E.calcCov st acc.fuzzSamples
      else st
    let rep3 : Report :=
      if evalHas metrics "kmnc" then [("Neural_coverage_KMNC", some (E.kmnc st))] else []
    let rep4 : Report :=
      if evalHas metrics "nbc" then [("Neural_coverage_NBC", some (E.nbc st))] else []
    let rep5 : Report :=
      if evalHas metrics "snac" then [("Neural_coverage_SNAC", some (E.snac st))] else []
    .ok (rep1 ++ rep2 ++ rep3 ++ rep4 ++ rep5)

/-- Embedded `_select_next` from `fuzzing.py`: pop the randomly chosen seed.  The
random index of `choice(range(len(initial_seeds)))` is supplied as `i` and
reduced modulo the length so that the embedding is total; the source only
calls this with a nonempty list, where every valid index is reachable. -/
def _select_next (i : ℕ) (initial_seeds : List Seed) : Seed × List Seed :=
  let idx := i % initial_seeds.length
  (initial_seeds.getD idx default, initial_seeds.eraseIdx idx)

/-- The recording loop `for mutate, cov, pred, strategy in zip(...)` of
`Fuzzer.fuzzing`: appends one entry to each of the four output lists per
zipped tuple (zip truncates at the shortest input) and re-queues the mutant
as a seed when its coverage gain is positive. -/
def recordLoop :
    List Seed → List ℚ → List (List ℚ) → List (Option String) →
    RunAcc → List Seed → RunAcc × List Seed
  | m :: ms, g :: gs, p :: ps, s :: ss, acc, seeds =>
    let acc' : RunAcc :=
      ⟨acc.fuzzSamples ++ [m.sample], acc.trueLabels ++ [m.label],
       acc.fuzzPreds ++ [p], acc.fuzzStrategies ++ [s]⟩
    let seeds' := if g > 0 then seeds ++ [m] else seeds
    recordLoop ms gs ps ss acc' seeds'
  | _, _, _, _, acc, seeds => (acc, seeds)

/-- The `while initial_seeds and iter_num < max_iters` loop of
`Fuzzer.fuzzing`.  `fuel` is `max_iters - iter_num`; `iterNum` indexes the
per-iteration random draws (`draws`, `applyT`) and the seed-selection draws
(`sel`).  Returns `none` when a flagged mutation attempt diverges. -/
def fuzzLoop {σ : Type} (E : CovEngine σ) (predictOne : List ℚ → List ℚ)
    (applyT : ℕ → ℕ → Strategy → List ℚ → List ℚ) (draws : ℕ → ℕ → List Strategy)
    (sel : ℕ → ℕ) (coverage_metric : String) (mutate_num_per_seed : ℕ) :
    ℕ → ℕ → List Seed → Seed → σ → RunAcc → Option (RunAcc × σ)
  | 0, _, _, _, st, acc => some (acc, st)
  | fuel + 1, iterNum, seeds, seed, st, acc =>
    if seeds.isEmpty then some (acc, st)
    else
      match _metamorphic_mutate (applyT iterNum) (draws iterNum) seed mutate_num_per_seed with
      | none => none
      | some (mutate_samples, mutate_strategies) =>
        let (coverages, predicts, st') :=
          _get_coverages_and_predict E predictOne st coverage_metric mutate_samples
        let coverage_gains := _coverage_gains coverages
        let (acc', seeds') :=
          recordLoop mutate_samples coverage_gains predicts mutate_strategies acc seeds
        let (seed', seeds'') := _select_next (sel (iterNum + 1)) seeds'
        fuzzLoop E predictOne applyT draws sel coverage_metric mutate_num_per_seed
          fuel (iterNum + 1) seeds'' seed' st' acc'

/-- The parameter validation prefix of `Fuzzer.fuzzing`, in source order:
`_check_eval_metrics`, the coverage-metric membership test, the positivity
checks of `max_iters` and `mutate_num_per_seed` (`check_int_positive`, whose
source is outside the embedded files; per the spec both must be positive
integers, and over `ℕ` only zero fails), `_check_mutate_config`, the
non-emptiness check of `initial_seeds`, and the per-seed validation that
appends the pixel-only flag `0` to every seed. -/
def fuzzingPre (attackCheck : String → List (String × List ℚ) → Except String Unit)
    (mutate_config : List Strategy) (initial_seeds : List (List ℚ × List ℚ))
    (coverage_metric : String) (eval_metrics : EvalArg) (max_iters mutate_num_per_seed : ℕ) :
    Except String (EvalSel × List Strategy × List Seed) :=
  match _check_eval_metrics eval_metrics with
  | .error msg => .error msg
  | .ok evalSel =>
    if coverage_metric ∉ (["KMNC", "NBC", "SNAC"] : List String) then
      .error "coverage_metric must be in KMNC, NBC, SNAC"
    else if max_iters = 0 then .error "max_iters must be positive"
    else if mutate_num_per_seed = 0 then .error "mutate_num_per_seed must be positive"
    else
      match _check_mutate_config attackCheck mutate_config with
      | .error msg => .error msg
      | .ok cfg =>
        if initial_seeds.isEmpty then .error "initial_seeds must not be empty."
        else .ok (evalSel, cfg, initial_seeds.map (fun p => ⟨p.1, p.2, 0⟩))

/-- Embedded `Fuzzer.fuzzing`: validation, initial `_select_next`, the mutation loop,
and the final `_evaluate` over the engine state accumulated by the run.
The outer `Option` is `none` when a mutation attempt diverges (the Python
redraw loop would spin); otherwise the `Except` carries either the raised
error or the four output lists together with the metrics report. -/
def fuzzing {σ : Type} (E : CovEngine σ) (predictOne : List ℚ → List ℚ)
    (applyT : ℕ → ℕ → Strategy → List ℚ → List ℚ) (draws : ℕ → ℕ → List Strategy)
    (sel : ℕ → ℕ) (attackCheck : String → List (String × List ℚ) → Except String Unit)
    (mutate_config : List Strategy) (initial_seeds : List (List ℚ × List ℚ))
    (coverage_metric : String) (eval_metrics : EvalArg)
    (max_iters mutate_num_per_seed : ℕ) (st : σ) :
    Option (Except String (RunAcc × Report)) :=
  match fuzzingPre attackCheck mutate_config initial_seeds coverage_metric eval_metrics
      max_iters mutate_num_per_seed with
  | .error msg => some (.error msg)
  | .ok (evalSel, _cfg, seeds) =>
    -- the checked config `_cfg` is consumed in the source through
    -- `choice(mutate_config)`, which the draw oracles `draws` model here
    let (seed, rest) := _select_next (sel 0) seeds
    match fuzzLoop E predictOne applyT draws sel coverage_metric mutate_num_per_seed
        max_iters 0 rest seed st ⟨[], [], [], []⟩ with
    | none => none
    | some (acc, stF) =>
      match _evaluate E stF evalSel acc with
      | .error msg => some (.error msg)
      | .ok report => some (.ok (acc, report))

/-- Whether an embedded call raised (Python: an exception propagated). -/
def exceptIsError {α : Type} : Except String α → Bool
  | .error _ => true
  | .ok _ => false

/-- Concrete seed for exercising `_is_trans_valid`: a 50-pixel zero image. -/
def c1Seed : List ℚ := List.replicate 50 0

/-- Concrete mutant: exactly one pixel changed, by 100. -/
def c1Mutant : List ℚ := 100 :: List.replicate 49 0

/-- Claim C1: on a sparse mutation (1 changed pixel out of 50, so L0 norm at
most 2 percent of the pixel count) with per-pixel change 100 (below 256),
the claim, the DeepHunter rule and the docstring of `_is_trans_valid` all
accept, yet the code rejects: its sparse branch applies the strict bound
`linf < 0.2*255 = 51`, and the widespread branch the loose bound
`linf < 256` — the two branches are swapped. -/
theorem C1_is_trans_valid_branches_swapped :
    _is_trans_valid c1Seed c1Mutant = false ∧
    (l0Norm (seedDiff c1Seed c1Mutant) : ℚ) ≤ (2 / 100) * ((seedDiff c1Seed c1Mutant).length : ℚ) ∧
    linfNorm (seedDiff c1Seed c1Mutant) < 256 := by
  refine ⟨?_, ?_, ?_⟩ <;>
    norm_num [c1Seed, c1Mutant, _is_trans_valid, seedDiff, l0Norm, linfNorm, List.replicate]

/-- Claim C6: for every non-empty coverage list, `_coverage_gains` returns a
list of the same length whose first element is the first coverage value and
whose element at every later position `i` is `coverage[i] - coverage[i-1]`. -/
theorem C6_coverage_gains_first_difference (c : List ℚ) (h : c ≠ []) :
    (_coverage_gains c).length = c.length ∧
    (_coverage_gains c).getD 0 0 = c.getD 0 0 ∧
    ∀ i, 0 < i → i < c.length →
      (_coverage_gains c).getD i 0 = c.getD i 0 - c.getD (i - 1) 0 := by
  have hpos : 0 < c.length := List.length_pos.mpr h
  have hdl : c.dropLast.length = c.length - 1 := List.length_dropLast c
  have hlen : (_coverage_gains c).length = c.length := by
    simp only [_coverage_gains, List.length_zipWith, List.length_cons, hdl]
    omega
  refine ⟨hlen, ?_, ?_⟩
  · obtain ⟨a, t, rfl⟩ := List.exists_cons_of_ne_nil h
    simp [_coverage_gains]
  · intro i hi hlt
    have h1 : i < (_coverage_gains c).length := by omega
    have h2' : i - 1 < c.length := by omega
    rw [List.getD_eq_getElem _ _ h1, List.getD_eq_getElem _ _ hlt, List.getD_eq_getElem _ _ h2']
    show (List.zipWith (fun a b => a - b) c (0 :: c.dropLast))[i] = _
    rw [List.getElem_zipWith]
    congr 1
    obtain ⟨j, rfl⟩ : ∃ j, i = j + 1 := ⟨i - 1, by omega⟩
    simp only [List.getElem_cons_succ, Nat.add_sub_cancel]
    exact List.getElem_dropLast c j (by omega)

/-- Witness for C6 at the concrete coverage sequence `[1, 3, 2]`, position 1. -/
theorem C6_coverage_gains_first_difference_witness :
    (_coverage_gains [1, 3, 2]).getD 1 0 =
      ([(1 : ℚ), 3, 2].getD 1 0 : ℚ) - [(1 : ℚ), 3, 2].getD 0 0 :=
  (C6_coverage_gains_first_difference [1, 3, 2] (by decide)).2.2 1 (by decide) (by decide)

/-- Claim C10: `_eval_info` raises exactly on empty inputs or an unknown
option, and returns the sentinel `-1` for `precision` with no positive
prediction and for `recall` with no positive label. -/
theorem C10_eval_info_sentinels_and_errors (pred truth : List ℕ) (option : String) :
    (exceptIsError (_eval_info pred truth option) = true ↔
      (pred = [] ∨ truth = [] ∨ option ∉ (["precision", "accuracy", "recall"] : List String))) ∧
    (option = "precision" → pred ≠ [] → truth ≠ [] → pred.sum = 0 →
      _eval_info pred truth option = .ok (-1)) ∧
    (option = "recall" → pred ≠ [] → truth ≠ [] → truth.sum = 0 →
      _eval_info pred truth option = .ok (-1)) := by
  simp only [_eval_info]
  split_ifs with h1 h2 h3 h4 h5 h6 <;> simp_all [List.length_eq_zero, exceptIsError]
  tauto

/-- Witness for C10: precision on all-negative predictions yields `-1`. -/
theorem C10_eval_info_sentinels_and_errors_witness :
    _eval_info [0, 0] [1, 0] "precision" = .ok (-1) :=
  (C10_eval_info_sentinels_and_errors [0, 0] [1, 0] "precision").2.1 rfl
    (by decide) (by decide) (by decide)

/-- The pixel-only restriction relating one produced mutant (with its
recorded strategy) to the seed it came from: a strategy applied to a flagged
seed is a pixel-value transform, a mutant produced by a non-pixel strategy
carries the flag, and a mutant of a flagged seed is flagged (inheritance). -/
def pixelOnlyInv (seed : Seed) (p : Seed × Option String) : Prop :=
  (∀ m, p.2 = some m →
    (seed.flag ≠ 0 → m ∈ pixel_value_trans_list) ∧
    (m ∉ pixel_value_trans_list → p.1.flag = 1)) ∧
  (seed.flag ≠ 0 → p.1.flag ≠ 0)

/-- One valid `_metamorphic_mutate` attempt satisfies the pixel-only
restriction. -/
theorem mmAttempt_pixelOnlyInv (applyT : Strategy → List ℚ → List ℚ) (seed : Seed)
    (ds : List Strategy) (child : Seed) (m : String)
    (h : mmAttempt applyT seed ds = some (some (child, m))) :
    pixelOnlyInv seed (child, some m) := by
  unfold mmAttempt at h
  cases hsel : selectStrategyDraws (decide (seed.flag ≠ 0)) ds with
  | none => rw [hsel] at h; simp at h
  | some strat =>
    rw [hsel] at h
    simp only [] at h
    have hfind : seed.flag ≠ 0 → strat.method ∈ pixel_value_trans_list := by
      intro hflag
      have hmem := hsel
      unfold selectStrategyDraws at hmem
      rw [decide_eq_true hflag] at hmem
      simp only [if_true] at hmem
      have := List.find?_some hmem
      simpa using this
    split_ifs at h with hval hpix
    · -- valid mutant via a pixel method: the child keeps the seed flag
      simp only [Option.some.injEq, Prod.mk.injEq] at h
      obtain ⟨hchild, hm⟩ := h
      refine ⟨?_, ?_⟩
      · intro m' hm'
        simp only [Option.some.injEq] at hm'
        subst hm'
        exact ⟨fun _ => hm ▸ hpix, fun hnp => absurd (hm ▸ hpix) hnp⟩
      · intro hflag
        rw [← hchild]
        exact hflag
    · -- valid mutant via a non-pixel method: the child flag is set to 1
      simp only [Option.some.injEq, Prod.mk.injEq] at h
      obtain ⟨hchild, hm⟩ := h
      refine ⟨?_, ?_⟩
      · intro m' hm'
        simp only [Option.some.injEq] at hm'
        subst hm'
        refine ⟨fun hflag => hm ▸ hfind hflag, fun _ => ?_⟩
        rw [← hchild]
      · intro _
        rw [← hchild]
        exact one_ne_zero
    · simp at h

/-- The attempt loop preserves the pixel-only restriction on the accumulated
mutants (the accumulator lists stay parallel). -/
theorem mmLoop_pixelOnlyInv (applyT : ℕ → Strategy → List ℚ → List ℚ)
    (draws : ℕ → List Strategy) (seed : Seed) :
    ∀ n k acc ss ms,
      acc.1.length = acc.2.length →
      (∀ p ∈ acc.1.zip acc.2, pixelOnlyInv seed p) →
      mmLoop applyT draws seed n k acc = some (ss, ms) →
      ∀ p ∈ ss.zip ms, pixelOnlyInv seed p := by
  intro n
  induction n with
  | zero =>
    intro k acc ss ms hlen hinv h
    simp only [mmLoop, Option.some.injEq] at h
    have h1 : acc.1 = ss := by rw [h]
    have h2 : acc.2 = ms := by rw [h]
    rw [← h1, ← h2]
    exact hinv
  | succ n ih =>
    intro k acc ss ms hlen hinv h
    simp only [mmLoop] at h
    cases hatt : mmAttempt (applyT k) seed (draws k) with
    | none => rw [hatt] at h; simp at h
    | some r =>
      rw [hatt] at h
      cases r with
      | none => exact ih (k + 1) acc ss ms hlen hinv h
      | some cm =>
        obtain ⟨child, m⟩ := cm
        refine ih (k + 1) (acc.1 ++ [child], acc.2 ++ [some m]) ss ms ?_ ?_ h
        · simp [hlen]
        · intro p hp
          rw [List.zip_append hlen] at hp
          rcases List.mem_append.mp hp with hp1 | hp2
          · exact hinv p hp1
          · have : p = (child, some m) := by simpa using hp2
            rw [this]
            exact mmAttempt_pixelOnlyInv (applyT k) seed (draws k) child m hatt

/-- The attempt loop keeps the mutant list and the strategy list parallel. -/
theorem mmLoop_lengths (applyT : ℕ → Strategy → List ℚ → List ℚ)
    (draws : ℕ → List Strategy) (seed : Seed) :
    ∀ n k acc ss ms,
      acc.1.length = acc.2.length →
      mmLoop applyT draws seed n k acc = some (ss, ms) →
      ss.length = ms.length := by
  intro n
  induction n with
  | zero =>
    intro k acc ss ms hlen h
    simp only [mmLoop, Option.some.injEq] at h
    have h1 : acc.1 = ss := by rw [h]
    have h2 : acc.2 = ms := by rw [h]
    rw [← h1, ← h2]
    exact hlen
  | succ n ih =>
    intro k acc ss ms hlen h
    simp only [mmLoop] at h
    cases hatt : mmAttempt (applyT k) seed (draws k) with
    | none => rw [hatt] at h; simp at h
    | some r =>
      rw [hatt] at h
      cases r with
      | none => exact ih (k + 1) acc ss ms hlen h
      | some cm =>
        exact ih (k + 1) (acc.1 ++ [cm.1], acc.2 ++ [some cm.2]) ss ms (by simp [hlen]) h

/-- When every attempt fails the validity check, the attempt loop leaves the
accumulator untouched. -/
theorem mmLoop_all_invalid (applyT : ℕ → Strategy → List ℚ → List ℚ)
    (draws : ℕ → List Strategy) (seed : Seed)
    (hall : ∀ k pr, mmAttempt (applyT k) seed (draws k) ≠ some (some pr)) :
    ∀ n k acc res, mmLoop applyT draws seed n k acc = some res → res = acc := by
  intro n
  induction n with
  | zero =>
    intro k acc res h
    simp only [mmLoop, Option.some.injEq] at h
    exact h.symm
  | succ n ih =>
    intro k acc res h
    simp only [mmLoop] at h
    cases hatt : mmAttempt (applyT k) seed (draws k) with
    | none => rw [hatt] at h; simp at h
    | some r =>
      rw [hatt] at h
      cases r with
      | none => exact ih (k + 1) acc res h
      | some pr => exact absurd hatt (hall k pr)

/-- Claim C2: every sample produced by `_metamorphic_mutate` respects the
pixel-only lineage restriction — a mutation attempt on a flagged seed only
ever selects a strategy from the pixel-value-transform methods Contrast,
Brightness, Blur, Noise; a sample produced by any other strategy carries the
flag; and every sample of a flagged seed inherits the flag (so descendants
of such samples are restricted in the same way once they are re-queued). -/
theorem C2_pixel_only_lineage (applyT : ℕ → Strategy → List ℚ → List ℚ)
    (draws : ℕ → List Strategy) (seed : Seed) (n : ℕ) (ss : List Seed)
    (ms : List (Option String))
    (h : _metamorphic_mutate applyT draws seed n = some (ss, ms)) :
    ∀ p ∈ ss.zip ms, pixelOnlyInv seed p := by
  unfold _metamorphic_mutate at h
  cases hml : mmLoop applyT draws seed n 0 ([], []) with
  | none => rw [hml] at h; simp at h
  | some acc =>
    obtain ⟨l1, l2⟩ := acc
    rw [hml] at h
    simp only [] at h
    by_cases he : l1.isEmpty
    · rw [if_pos he] at h
      simp only [Option.some.injEq, Prod.mk.injEq] at h
      obtain ⟨h1, h2⟩ := h
      rw [← h1, ← h2]
      intro p hp
      have hps : p = (seed, none) := by simpa using hp
      rw [hps]
      exact ⟨fun m hm => by simp at hm, fun hf => hf⟩
    · rw [if_neg he] at h
      simp only [Option.some.injEq, Prod.mk.injEq] at h
      obtain ⟨h1, h2⟩ := h
      rw [← h1, ← h2]
      exact mmLoop_pixelOnlyInv applyT draws seed n 0 ([], []) l1 l2 rfl (by simp) hml

/-- Concrete flagged seed for the C2 witness. -/
def c2Seed : Seed := ⟨[0], [1, 0], 1⟩

/-- A Contrast strategy entry (a pixel-value transform). -/
def contrastStrategy : Strategy := ⟨"Contrast", [("factor", [1, 3 / 2])]⟩

/-- Witness for C2: a concrete mutation of a flagged seed through Contrast
satisfies the pixel-only restriction. -/
theorem C2_pixel_only_lineage_witness : pixelOnlyInv c2Seed (c2Seed, some "Contrast") :=
  C2_pixel_only_lineage (fun _ _ s => s) (fun _ => [contrastStrategy]) c2Seed 1
    [c2Seed] [some "Contrast"]
    (by norm_num [_metamorphic_mutate, mmLoop, mmAttempt, selectStrategyDraws,
      _is_trans_valid, seedDiff, l0Norm, linfNorm, c2Seed, contrastStrategy,
      pixel_value_trans_list, List.find?])
    (c2Seed, some "Contrast") (by simp)

/-- Claim C9: `_metamorphic_mutate` never returns empty lists, and when every
attempt fails the validity check it returns exactly the unmodified seed
paired with the strategy `None`. -/
theorem C9_fallback_returns_seed_with_none (applyT : ℕ → Strategy → List ℚ → List ℚ)
    (draws : ℕ → List Strategy) (seed : Seed) (n : ℕ) (ss : List Seed)
    (ms : List (Option String))
    (h : _metamorphic_mutate applyT draws seed n = some (ss, ms)) :
    ss ≠ [] ∧ ms ≠ [] ∧
    ((∀ k pr, mmAttempt (applyT k) seed (draws k) ≠ some (some pr)) →
      ss = [seed] ∧ ms = [none]) := by
  unfold _metamorphic_mutate at h
  cases hml : mmLoop applyT draws seed n 0 ([], []) with
  | none => rw [hml] at h; simp at h
  | some acc =>
    obtain ⟨l1, l2⟩ := acc
    rw [hml] at h
    simp only [] at h
    by_cases he : l1.isEmpty
    · rw [if_pos he] at h
      simp only [Option.some.injEq, Prod.mk.injEq] at h
      obtain ⟨h1, h2⟩ := h
      exact ⟨by rw [← h1]; simp, by rw [← h2]; simp, fun _ => ⟨h1.symm, h2.symm⟩⟩
    · rw [if_neg he] at h
      simp only [Option.some.injEq, Prod.mk.injEq] at h
      obtain ⟨h1, h2⟩ := h
      have hlen : l1.length = l2.length :=
        mmLoop_lengths applyT draws seed n 0 ([], []) l1 l2 rfl hml
      have hl1 : l1 ≠ [] := by
        intro hc
        rw [hc] at he
        simp at he
      refine ⟨by rw [← h1]; exact hl1, ?_, ?_⟩
      · rw [← h2]
        intro hc
        rw [hc] at hlen
        simp only [List.length_nil] at hlen
        exact hl1 (List.length_eq_zero.mp hlen)
      · intro hall
        exfalso
        have := mmLoop_all_invalid applyT draws seed hall n 0 ([], []) (l1, l2) hml
        have hl1e : l1 = [] := by
          have := congrArg Prod.fst this
          simpa using this
        exact hl1 hl1e

/-- Unflagged seed used in the C9 witness. -/
def c9Seed : Seed := ⟨[0], [1, 0], 0⟩

/-- Witness for C9: one attempt that adds 300 to every pixel fails the
validity check, so the returned lists are the fallback and in particular
nonempty. -/
theorem C9_fallback_returns_seed_with_none_witness : ([c9Seed] : List Seed) ≠ [] :=
  (C9_fallback_returns_seed_with_none (fun _ _ s => s.map (fun x => x + 300))
    (fun _ => [contrastStrategy]) c9Seed 1 [c9Seed] [none]
    (by norm_num [_metamorphic_mutate, mmLoop, mmAttempt, selectStrategyDraws,
      _is_trans_valid, seedDiff, l0Norm, linfNorm, c9Seed, contrastStrategy,
      pixel_value_trans_list])).1

/-- The raised message of an embedded error (empty for a normal return). -/
def errOf {α : Type} : Except String α → String
  | .error msg => msg
  | .ok _ => ""

/-- A trivial coverage engine used for concrete witnesses. -/
def unitEngine : CovEngine Unit :=
  ⟨fun _ _ => (), fun _ => 0, fun _ => 0, fun _ => 0⟩

/-- With no pixel-value-transform method configured, the per-entry loop of
`_check_mutate_config` can never report that one was seen. -/
theorem checkConfigLoop_no_pixel
    (attackCheck : String → List (String × List ℚ) → Except String Unit) :
    ∀ cfg : List Strategy, (∀ c ∈ cfg, c.method ∉ pixel_value_trans_list) →
      checkConfigLoop attackCheck cfg false ≠ .ok true := by
  intro cfg
  induction cfg with
  | nil =>
    intro _
    simp [checkConfigLoop]
  | cons c rest ih =>
    intro hnp
    have hc : c.method ∉ pixel_value_trans_list := hnp c (by simp)
    simp only [checkConfigLoop]
    by_cases hmem : c.method ∈ strategies_keys
    · rw [if_pos hmem, decide_eq_false hc]
      simp only [Bool.or_false]
      cases hek : (if c.method ∈ attacks_list then attackCheck c.method c.params
          else checkParamsAreLists c.params) with
      | error msg => simp
      | ok u => exact ih (fun c' hc' => hnp c' (by simp [hc']))
    · rw [if_neg hmem]
      simp

/-- Embedded `_check_mutate_config` raises on every configuration that lacks a
pixel-value-transform method, whatever the attack-parameter checker does. -/
theorem check_mutate_config_no_pixel
    (attackCheck : String → List (String × List ℚ) → Except String Unit)
    (cfg : List Strategy) (hnp : ∀ c ∈ cfg, c.method ∉ pixel_value_trans_list) :
    exceptIsError (_check_mutate_config attackCheck cfg) = true := by
  unfold _check_mutate_config
  cases hcl : checkConfigLoop attackCheck cfg false with
  | error msg => simp [exceptIsError]
  | ok b =>
    cases b with
    | false => simp [exceptIsError]
    | true => exact absurd hcl (checkConfigLoop_no_pixel attackCheck cfg hnp)

/-- Claim C4: when no configured method is a pixel-value transform (and the
other arguments pass their earlier checks), `Fuzzer.fuzzing` raises exactly
the configuration-check error, for every initial seed list and every
mutation/prediction/coverage oracle — so no seed is ever selected and no
mutation is ever attempted. -/
theorem C4_no_pixel_config_raises_before_fuzzing {σ : Type} (E : CovEngine σ)
    (predictOne : List ℚ → List ℚ) (applyT : ℕ → ℕ → Strategy → List ℚ → List ℚ)
    (draws : ℕ → ℕ → List Strategy) (sel : ℕ → ℕ)
    (attackCheck : String → List (String × List ℚ) → Except String Unit)
    (mutate_config : List Strategy) (initial_seeds : List (List ℚ × List ℚ))
    (eval_metrics : EvalArg) (evalSel : EvalSel) (coverage_metric : String)
    (max_iters mutate_num_per_seed : ℕ) (st : σ)
    (hnp : ∀ c ∈ mutate_config, c.method ∉ pixel_value_trans_list)
    (hem : _check_eval_metrics eval_metrics = .ok evalSel)
    (hcm : coverage_metric ∈ (["KMNC", "NBC", "SNAC"] : List String))
    (hmi : max_iters ≠ 0) (hmn : mutate_num_per_seed ≠ 0) :
    exceptIsError (_check_mutate_config attackCheck mutate_config) = true ∧
    fuzzing E predictOne applyT draws sel attackCheck mutate_config initial_seeds
      coverage_metric eval_metrics max_iters mutate_num_per_seed st =
      some (.error (errOf (_check_mutate_config attackCheck mutate_config))) := by
  have herr := check_mutate_config_no_pixel attackCheck mutate_config hnp
  refine ⟨herr, ?_⟩
  unfold fuzzing fuzzingPre
  rw [hem]
  simp only []
  rw [if_neg (by simp [hcm]), if_neg hmi, if_neg hmn]
  cases hcfg : _check_mutate_config attackCheck mutate_config with
  | error msg => simp [errOf]
  | ok _ =>
    rw [hcfg] at herr
    simp [exceptIsError] at herr

/-- Affine-only configuration for the C4 witness. -/
def c4Config : List Strategy := [⟨"Translate", [("x_bias", [1])]⟩]

/-- Witness for C4 at a concrete affine-only configuration. -/
theorem C4_no_pixel_config_raises_before_fuzzing_witness :
    exceptIsError (_check_mutate_config (fun _ _ => .ok ()) c4Config) = true ∧
    fuzzing unitEngine (fun s => s) (fun _ _ _ s => s) (fun _ _ => []) (fun _ => 0)
      (fun _ _ => .ok ()) c4Config [([0], [1, 0])] "KMNC" (.str "auto") 1 1 () =
      some (.error (errOf (_check_mutate_config (fun _ _ => .ok ()) c4Config))) :=
  C4_no_pixel_config_raises_before_fuzzing unitEngine (fun s => s) (fun _ _ _ s => s)
    (fun _ _ => []) (fun _ => 0) (fun _ _ => .ok ()) c4Config [([0], [1, 0])]
    (.str "auto") .auto "KMNC" 1 1 ()
    (by simp [c4Config, pixel_value_trans_list]) rfl (by simp) one_ne_zero one_ne_zero

/-- The report of an embedded `_evaluate` call that returned normally. -/
def reportOf : Except String Report → Report
  | .ok r => r
  | .error _ => []

/-- With `eval_metrics = 'auto'` every branch of `_evaluate` runs, producing
the five report entries in order. -/
theorem evaluate_auto_report {σ : Type} (E : CovEngine σ) (st : σ) (acc : RunAcc)
    (temp : List Bool) (hm : matchVector acc = .ok temp) :
    _evaluate E st .auto acc =
      .ok [("Accuracy", some (accuracyValue temp)),
           ("Attack_success_rate", attackSuccessRate temp acc.fuzzStrategies),
           ("Neural_coverage_KMNC", some (E.kmnc (E.calcCov st acc.fuzzSamples))),
           ("Neural_coverage_NBC", some (E.nbc (E.calcCov st acc.fuzzSamples))),
           ("Neural_coverage_SNAC", some (E.snac (E.calcCov st acc.fuzzSamples)))] := by
  unfold _evaluate
  rw [hm]
  simp [evalHas]

/-- Looking up the attack-success-rate entry of the auto report. -/
theorem reportLookup_attack (v1 : Option ℚ) (v2 v3 v4 v5 : Option ℚ) :
    reportLookup "Attack_success_rate"
      [("Accuracy", v1), ("Attack_success_rate", v2), ("Neural_coverage_KMNC", v3),
       ("Neural_coverage_NBC", v4), ("Neural_coverage_SNAC", v5)] = some v2 := by
  simp only [reportLookup, if_neg (show ¬("Accuracy" = "Attack_success_rate") by decide),
    if_pos rfl, if_true]

/-- Claim C5 (amended): in the auto report of `_evaluate`, the
Attack_success_rate entry is `None` exactly when no attack-strategy sample
has a matching prediction (in particular also when attack samples exist but
all are mispredicted); whenever some attack-strategy sample matches, the
entry is one minus the fraction of matching samples in the attack subset. -/
theorem C5_attack_success_rate_none_iff_no_match {σ : Type} (E : CovEngine σ) (st : σ)
    (acc : RunAcc) (temp : List Bool) (rep : Report)
    (hm : matchVector acc = .ok temp)
    (he : _evaluate E st .auto acc = .ok rep) :
    (reportLookup "Attack_success_rate" rep = some none ↔
      (attackFilter temp acc.fuzzStrategies).any id = false) ∧
    ((attackFilter temp acc.fuzzStrategies).any id = true →
      reportLookup "Attack_success_rate" rep =
        some (some (1 - ((attackFilter temp acc.fuzzStrategies).count true : ℚ) /
          ((attackFilter temp acc.fuzzStrategies).length : ℚ)))) := by
  rw [evaluate_auto_report E st acc temp hm] at he
  have hrep : rep =
      [("Accuracy", some (accuracyValue temp)),
       ("Attack_success_rate", attackSuccessRate temp acc.fuzzStrategies),
       ("Neural_coverage_KMNC", some (E.kmnc (E.calcCov st acc.fuzzSamples))),
       ("Neural_coverage_NBC", some (E.nbc (E.calcCov st acc.fuzzSamples))),
       ("Neural_coverage_SNAC", some (E.snac (E.calcCov st acc.fuzzSamples)))] := by
    have := he.symm
    simpa using this
  rw [hrep, reportLookup_attack]
  unfold attackSuccessRate
  cases ha : (attackFilter temp acc.fuzzStrategies).any id with
  | false => simp
  | true => simp

/-- Concrete `_evaluate` input with one attack-strategy sample whose
prediction does not match the label. -/
def c5Acc : RunAcc := ⟨[[0]], [[1, 0]], [[0, 1]], [some "FGSM"]⟩

/-- Counterexample for C5: at `c5Acc` the attack subset is nonempty (the one
sample was produced by FGSM), yet the Attack_success_rate entry of the auto
report is `None` because the single attack sample is mispredicted — the
claim says the entry should equal 1 there. -/
theorem C5_attack_success_rate_counterexample :
    reportLookup "Attack_success_rate" (reportOf (_evaluate unitEngine () .auto c5Acc)) =
      some none ∧
    exceptIsError (_evaluate unitEngine () .auto c5Acc) = false ∧
    c5Acc.fuzzStrategies.filter strategyIsAttack ≠ [] := by
  have hm : matchVector c5Acc = .ok [false] := by
    norm_num [matchVector, argmaxRows, argmaxRowsLoop, argmaxIdx, argmaxIdxAux, c5Acc]
  have he := evaluate_auto_report unitEngine () c5Acc [false] hm
  have hrate : attackSuccessRate [false] c5Acc.fuzzStrategies = none := by
    norm_num [attackSuccessRate, attackFilter, strategyIsAttack, attacks_list, c5Acc]
  refine ⟨?_, ?_, ?_⟩
  · rw [he]
    simp only [reportOf]
    rw [reportLookup_attack, hrate]
  · rw [he]
    simp [exceptIsError]
  · norm_num [c5Acc, strategyIsAttack, attacks_list]

/-- Concrete `_evaluate` input with one attack-strategy sample whose
prediction matches the label. -/
def c5WAcc : RunAcc := ⟨[[0]], [[1, 0]], [[1, 0]], [some "FGSM"]⟩

/-- The auto report of `_evaluate` at `c5WAcc` over the trivial engine. -/
def c5WRep : Report :=
  [("Accuracy", some (accuracyValue [true])),
   ("Attack_success_rate", attackSuccessRate [true] c5WAcc.fuzzStrategies),
   ("Neural_coverage_KMNC", some (unitEngine.kmnc (unitEngine.calcCov () c5WAcc.fuzzSamples))),
   ("Neural_coverage_NBC", some (unitEngine.nbc (unitEngine.calcCov () c5WAcc.fuzzSamples))),
   ("Neural_coverage_SNAC", some (unitEngine.snac (unitEngine.calcCov () c5WAcc.fuzzSamples)))]

/-- Witness for the amended C5 at `c5WAcc`: the attack subset has a matching
sample and the reported rate is 1 minus the matching fraction. -/
theorem C5_attack_success_rate_none_iff_no_match_witness :
    reportLookup "Attack_success_rate" c5WRep =
      some (some (1 - ((attackFilter [true] c5WAcc.fuzzStrategies).count true : ℚ) /
        ((attackFilter [true] c5WAcc.fuzzStrategies).length : ℚ))) := by
  have hm : matchVector c5WAcc = .ok [true] := by
    norm_num [matchVector, argmaxRows, argmaxRowsLoop, argmaxIdx, argmaxIdxAux, c5WAcc]
  have he : _evaluate unitEngine () .auto c5WAcc = .ok c5WRep :=
    evaluate_auto_report unitEngine () c5WAcc [true] hm
  exact (C5_attack_success_rate_none_iff_no_match unitEngine () c5WAcc [true] c5WRep hm he).2
    (by norm_num [attackFilter, c5WAcc, strategyIsAttack, attacks_list])

/-- When `fuzzing` is called with the string `auto`, the checked selector the
run evaluates with is `auto`. -/
theorem fuzzingPre_ok_auto (attackCheck : String → List (String × List ℚ) → Except String Unit)
    (cfg : List Strategy) (seeds : List (List ℚ × List ℚ)) (metric : String) (mi mn : ℕ)
    (es : EvalSel) (c2 : List Strategy) (s2 : List Seed)
    (h : fuzzingPre attackCheck cfg seeds metric (.str "auto") mi mn = .ok (es, c2, s2)) :
    es = .auto := by
  unfold fuzzingPre at h
  have hce : _check_eval_metrics (.str "auto") = .ok .auto := rfl
  rw [hce] at h
  simp only [] at h
  split_ifs at h with h1 h2 h3
  · rcases hcfg : _check_mutate_config attackCheck cfg with msg | c <;>
      rw [hcfg] at h <;> simp at h
  · rcases hcfg : _check_mutate_config attackCheck cfg with msg | c
    · rw [hcfg] at h
      simp at h
    · rw [hcfg] at h
      simp only [Except.ok.injEq, Prod.mk.injEq] at h
      exact h.1.symm

/-- A normal `_evaluate` return under `auto` carries exactly the five report
keys, in order. -/
theorem evaluate_auto_keys {σ : Type} (E : CovEngine σ) (st : σ) (acc : RunAcc) (rep : Report)
    (h : _evaluate E st .auto acc = .ok rep) :
    rep.map Prod.fst =
      ["Accuracy", "Attack_success_rate", "Neural_coverage_KMNC",
       "Neural_coverage_NBC", "Neural_coverage_SNAC"] := by
  rcases hm : matchVector acc with msg | temp
  · unfold _evaluate at h
    rw [hm] at h
    simp at h
  · rw [evaluate_auto_report E st acc temp hm] at h
    have hrep : rep = _ := (Except.ok.injEq _ _ |>.mp h).symm
    rw [hrep]
    rfl

/-- Claim C8: a `Fuzzer.fuzzing` call with `eval_metrics = 'auto'` that
returns normally produces a metrics report whose keys are exactly Accuracy,
Attack_success_rate, Neural_coverage_KMNC, Neural_coverage_NBC and
Neural_coverage_SNAC. -/
theorem C8_auto_report_has_five_keys {σ : Type} (E : CovEngine σ)
    (predictOne : List ℚ → List ℚ) (applyT : ℕ → ℕ → Strategy → List ℚ → List ℚ)
    (draws : ℕ → ℕ → List Strategy) (sel : ℕ → ℕ)
    (attackCheck : String → List (String × List ℚ) → Except String Unit)
    (cfg : List Strategy) (seeds : List (List ℚ × List ℚ)) (metric : String)
    (mi mn : ℕ) (st : σ) (acc : RunAcc) (rep : Report)
    (h : fuzzing E predictOne applyT draws sel attackCheck cfg seeds metric (.str "auto") mi mn st
      = some (.ok (acc, rep))) :
    rep.map Prod.fst =
      ["Accuracy", "Attack_success_rate", "Neural_coverage_KMNC",
       "Neural_coverage_NBC", "Neural_coverage_SNAC"] := by
  unfold fuzzing at h
  rcases hpre : fuzzingPre attackCheck cfg seeds metric (.str "auto") mi mn with msg | ⟨es, c2, s2⟩
  · rw [hpre] at h
    simp at h
  · rw [hpre] at h
    have hes := fuzzingPre_ok_auto attackCheck cfg seeds metric mi mn es c2 s2 hpre
    subst hes
    simp only [] at h
    rcases hselp : _select_next (sel 0) s2 with ⟨seed0, rest0⟩
    rw [hselp] at h
    simp only [] at h
    rcases hloop : fuzzLoop E predictOne applyT draws sel metric mn mi 0 rest0 seed0 st
        ⟨[], [], [], []⟩ with _ | ⟨acc', stF⟩
    · rw [hloop] at h
      simp at h
    · rw [hloop] at h
      simp only [] at h
      rcases heval : _evaluate E stF .auto acc' with msg | rep'
      · rw [heval] at h
        simp at h
      · rw [heval] at h
        simp only [Option.some.injEq, Except.ok.injEq, Prod.mk.injEq] at h
        obtain ⟨_, hrep⟩ := h
        rw [← hrep]
        exact evaluate_auto_keys E stF acc' rep' heval

/-- Two identical one-pixel seeds for the concrete `fuzzing` runs. -/
def w8Seeds : List (List ℚ × List ℚ) := [([0], [1, 0]), ([0], [1, 0])]

/-- The four output lists of the concrete run `w8`: one Contrast mutant. -/
def w8Acc : RunAcc := ⟨[[0]], [[1, 0]], [[1, 0]], [some "Contrast"]⟩

/-- The auto report of the concrete run `w8`. -/
def w8Rep : Report :=
  [("Accuracy", some 1), ("Attack_success_rate", none),
   ("Neural_coverage_KMNC", some 0), ("Neural_coverage_NBC", some 0),
   ("Neural_coverage_SNAC", some 0)]

/-- The concrete run `w8` returns normally with `w8Acc` and `w8Rep`:
two seeds, one iteration, one identity Contrast mutation per seed. -/
theorem w8_run_eval :
    fuzzing unitEngine (fun _ => [1, 0]) (fun _ _ _ s => s) (fun _ _ => [contrastStrategy])
      (fun _ => 0) (fun _ _ => .ok ()) [contrastStrategy] w8Seeds "KMNC" (.str "auto") 1 1 ()
      = some (.ok (w8Acc, w8Rep)) := by
  norm_num [fuzzing, fuzzingPre, _check_eval_metrics, _check_mutate_config, checkConfigLoop,
    checkParamsAreLists, contrastStrategy, strategies_keys, pixel_value_trans_list,
    attacks_list, w8Seeds, _select_next, fuzzLoop, _metamorphic_mutate, mmLoop, mmAttempt,
    selectStrategyDraws, _is_trans_valid, seedDiff, l0Norm, linfNorm,
    _get_coverages_and_predict, gcapCov, _coverage_gains, recordLoop, _evaluate, matchVector,
    argmaxRows, argmaxRowsLoop, argmaxIdx, argmaxIdxAux, evalHas, accuracyValue,
    attackSuccessRate, attackFilter, strategyIsAttack, unitEngine, w8Acc, w8Rep]
  decide

/-- Witness for C8: the concrete run `w8` yields the five keys. -/
theorem C8_auto_report_has_five_keys_witness :
    w8Rep.map Prod.fst =
      ["Accuracy", "Attack_success_rate", "Neural_coverage_KMNC",
       "Neural_coverage_NBC", "Neural_coverage_SNAC"] :=
  C8_auto_report_has_five_keys unitEngine (fun _ => [1, 0]) (fun _ _ _ s => s)
    (fun _ _ => [contrastStrategy]) (fun _ => 0) (fun _ _ => .ok ()) [contrastStrategy]
    w8Seeds "KMNC" 1 1 () w8Acc w8Rep w8_run_eval

/-- The four output lists of a run have equal lengths. -/
def accLensEq (a : RunAcc) : Prop :=
  a.fuzzSamples.length = a.trueLabels.length ∧
  a.trueLabels.length = a.fuzzPreds.length ∧
  a.fuzzPreds.length = a.fuzzStrategies.length

/-- The recording loop appends exactly one element to each of the four lists
per zipped tuple, so it preserves their equal lengths. -/
theorem recordLoop_lensEq (ms : List Seed) :
    ∀ (gs : List ℚ) (ps : List (List ℚ)) (ss : List (Option String)) (acc : RunAcc)
      (seeds : List Seed), accLensEq acc → accLensEq (recordLoop ms gs ps ss acc seeds).1 := by
  induction ms with
  | nil =>
    intro gs ps ss acc seeds hlen
    simpa [recordLoop] using hlen
  | cons m mrest ih =>
    intro gs ps ss acc seeds hlen
    cases gs with
    | nil => simpa [recordLoop] using hlen
    | cons g grest =>
      cases ps with
      | nil => simpa [recordLoop] using hlen
      | cons p prest =>
        cases ss with
        | nil => simpa [recordLoop] using hlen
        | cons s srest =>
          simp only [recordLoop]
          apply ih
          simp only [accLensEq, List.length_append, List.length_cons, List.length_nil] at hlen ⊢
          omega

/-- The main fuzzing loop preserves the equal lengths of the four output
lists. -/
theorem fuzzLoop_lensEq {σ : Type} (E : CovEngine σ) (predictOne : List ℚ → List ℚ)
    (applyT : ℕ → ℕ → Strategy → List ℚ → List ℚ) (draws : ℕ → ℕ → List Strategy)
    (sel : ℕ → ℕ) (metric : String) (mn : ℕ) :
    ∀ (fuel iterNum : ℕ) (seeds : List Seed) (seed : Seed) (st : σ) (acc acc' : RunAcc)
      (stF : σ), accLensEq acc →
      fuzzLoop E predictOne applyT draws sel metric mn fuel iterNum seeds seed st acc
        = some (acc', stF) →
      accLensEq acc' := by
  intro fuel
  induction fuel with
  | zero =>
    intro iterNum seeds seed st acc acc' stF hlen h
    simp only [fuzzLoop, Option.some.injEq, Prod.mk.injEq] at h
    rw [← h.1]
    exact hlen
  | succ fuel ih =>
    intro iterNum seeds seed st acc acc' stF hlen h
    simp only [fuzzLoop] at h
    split_ifs at h with hempty
    · simp only [Option.some.injEq, Prod.mk.injEq] at h
      rw [← h.1]
      exact hlen
    · rcases hm : _metamorphic_mutate (applyT iterNum) (draws iterNum) seed mn with _ | ⟨msamples, mstrats⟩
      · rw [hm] at h
        simp at h
      · rw [hm] at h
        simp only [] at h
        rcases hg : _get_coverages_and_predict E predictOne st metric msamples with
          ⟨covs, preds, st2⟩
        rw [hg] at h
        simp only [] at h
        rcases hr : recordLoop msamples (_coverage_gains covs) preds mstrats acc seeds with
          ⟨acc2, seeds2⟩
        rw [hr] at h
        simp only [] at h
        rcases hs : _select_next (sel (iterNum + 1)) seeds2 with ⟨seed2, seeds3⟩
        rw [hs] at h
        have hlen2 : accLensEq acc2 := by
          have hx := recordLoop_lensEq msamples (_coverage_gains covs) preds mstrats acc seeds hlen
          rw [hr] at hx
          exact hx
        exact ih (iterNum + 1) seeds3 seed2 st2 acc2 acc' stF hlen2 h

/-- Claim C7: whenever `Fuzzer.fuzzing` returns normally, the four returned
lists fuzz_samples, true_labels, fuzz_preds and fuzz_strategies have equal
lengths. -/
theorem C7_output_lists_equal_length {σ : Type} (E : CovEngine σ)
    (predictOne : List ℚ → List ℚ) (applyT : ℕ → ℕ → Strategy → List ℚ → List ℚ)
    (draws : ℕ → ℕ → List Strategy) (sel : ℕ → ℕ)
    (attackCheck : String → List (String × List ℚ) → Except String Unit)
    (cfg : List Strategy) (seeds : List (List ℚ × List ℚ)) (metric : String)
    (em : EvalArg) (mi mn : ℕ) (st : σ) (acc : RunAcc) (rep : Report)
    (h : fuzzing E predictOne applyT draws sel attackCheck cfg seeds metric em mi mn st
      = some (.ok (acc, rep))) :
    acc.fuzzSamples.length = acc.trueLabels.length ∧
    acc.trueLabels.length = acc.fuzzPreds.length ∧
    acc.fuzzPreds.length = acc.fuzzStrategies.length := by
  unfold fuzzing at h
  rcases hpre : fuzzingPre attackCheck cfg seeds metric em mi mn with msg | ⟨es, c2, s2⟩
  · rw [hpre] at h
    simp at h
  · rw [hpre] at h
    simp only [] at h
    rcases hselp : _select_next (sel 0) s2 with ⟨seed0, rest0⟩
    rw [hselp] at h
    simp only [] at h
    rcases hloop : fuzzLoop E predictOne applyT draws sel metric mn mi 0 rest0 seed0 st
        ⟨[], [], [], []⟩ with _ | ⟨acc', stF⟩
    · rw [hloop] at h
      simp at h
    · rw [hloop] at h
      simp only [] at h
      rcases heval : _evaluate E stF es acc' with msg | rep'
      · rw [heval] at h
        simp at h
      · rw [heval] at h
        simp only [Option.some.injEq, Except.ok.injEq, Prod.mk.injEq] at h
        obtain ⟨hacc, _⟩ := h
        rw [← hacc]
        exact fuzzLoop_lensEq E predictOne applyT draws sel metric mn mi 0 rest0 seed0 st
          ⟨[], [], [], []⟩ acc' stF ⟨rfl, rfl, rfl⟩ hloop

/-- Witness for C7 at the concrete run `w8`. -/
theorem C7_output_lists_equal_length_witness :
    w8Acc.fuzzSamples.length = w8Acc.trueLabels.length ∧
    w8Acc.trueLabels.length = w8Acc.fuzzPreds.length ∧
    w8Acc.fuzzPreds.length = w8Acc.fuzzStrategies.length :=
  C7_output_lists_equal_length unitEngine (fun _ => [1, 0]) (fun _ _ _ s => s)
    (fun _ _ => [contrastStrategy]) (fun _ => 0) (fun _ _ => .ok ()) [contrastStrategy]
    w8Seeds "KMNC" (.str "auto") 1 1 () w8Acc w8Rep w8_run_eval

/-- A fuzzing run seeded with exactly one sample consumes that seed in the
initial `_select_next`, the loop body never runs, and the final auto
evaluation raises numpy's axis error on the empty result lists. -/
theorem single_seed_run_raises {σ : Type} (E : CovEngine σ)
    (predictOne : List ℚ → List ℚ) (applyT : ℕ → ℕ → Strategy → List ℚ → List ℚ)
    (draws : ℕ → ℕ → List Strategy) (sel : ℕ → ℕ) (img lbl : List ℚ) (st : σ) :
    fuzzLoop E predictOne applyT draws sel "KMNC" 3 5 0 [] ⟨img, lbl, 0⟩ st ⟨[], [], [], []⟩
      = some (⟨[], [], [], []⟩, st) ∧
    fuzzing E predictOne applyT draws sel (fun _ _ => .ok ()) [contrastStrategy]
      [(img, lbl)] "KMNC" (.str "auto") 5 3 st
      = some (.error "np.argmax: axis 1 is out of bounds for array of dimension 1") := by
  have hloop : fuzzLoop E predictOne applyT draws sel "KMNC" 3 5 0 [] ⟨img, lbl, 0⟩ st
      ⟨[], [], [], []⟩ = some (⟨[], [], [], []⟩, st) := by
    simp [fuzzLoop]
  refine ⟨hloop, ?_⟩
  have hpre : fuzzingPre (fun _ _ => .ok ()) [contrastStrategy] [(img, lbl)] "KMNC"
      (.str "auto") 5 3 = .ok (.auto, [contrastStrategy], [⟨img, lbl, 0⟩]) := by
    norm_num [fuzzingPre, _check_eval_metrics, _check_mutate_config, checkConfigLoop,
      checkParamsAreLists, contrastStrategy, strategies_keys, pixel_value_trans_list,
      attacks_list]
  have hsel : _select_next (sel 0) [(⟨img, lbl, 0⟩ : Seed)] = (⟨img, lbl, 0⟩, []) := by
    simp [_select_next, Nat.mod_one]
  unfold fuzzing
  rw [hpre]
  simp only []
  rw [hsel]
  simp only []
  rw [hloop]
  simp only []
  norm_num [_evaluate, matchVector, argmaxRows]

/-- Claim C3 (amended): a fuzzing run seeded with exactly one sample
consumes that seed in the initial `_select_next`, so the
`while initial_seeds` loop never executes and no samples are generated
(first conjunct: the loop returns the empty accumulator untouched), and the
final auto evaluation then raises numpy's axis error on the empty result
lists instead of returning — for every model, engine and oracle. -/
theorem C3_single_seed_run_produces_nothing_and_raises {σ : Type} (E : CovEngine σ)
    (predictOne : List ℚ → List ℚ) (applyT : ℕ → ℕ → Strategy → List ℚ → List ℚ)
    (draws : ℕ → ℕ → List Strategy) (sel : ℕ → ℕ) (img lbl : List ℚ) (st : σ) :
    fuzzLoop E predictOne applyT draws sel "KMNC" 3 5 0 [] ⟨img, lbl, 0⟩ st ⟨[], [], [], []⟩
      = some (⟨[], [], [], []⟩, st) ∧
    fuzzing E predictOne applyT draws sel (fun _ _ => .ok ()) [contrastStrategy]
      [(img, lbl)] "KMNC" (.str "auto") 5 3 st
      = some (.error "np.argmax: axis 1 is out of bounds for array of dimension 1") :=
  single_seed_run_raises E predictOne applyT draws sel img lbl st

/-- The 32x32 single-channel zero image of the C3 scenario. -/
def c3Img : List ℚ := List.replicate 1024 0

/-- A one-hot label of length 10. -/
def c3Label : List ℚ := 1 :: List.replicate 9 0

/-- Counterexample for C3: the fully concrete single-seed run (32x32 zero
image, one-hot label of length 10, a single Contrast transform with factors
1 and 1.5, max_iters 5, mutate_num_per_seed 3) raises instead of returning
a non-empty fuzz_samples list. -/
theorem C3_single_seed_counterexample :
    fuzzing unitEngine (fun s => s) (fun _ _ _ s => s) (fun _ _ => [contrastStrategy])
      (fun _ => 0) (fun _ _ => .ok ()) [contrastStrategy] [(c3Img, c3Label)] "KMNC"
      (.str "auto") 5 3 ()
      = some (.error "np.argmax: axis 1 is out of bounds for array of dimension 1") :=
  (single_seed_run_raises unitEngine (fun s => s) (fun _ _ _ s => s)
    (fun _ _ => [contrastStrategy]) (fun _ => 0) c3Img c3Label ()).2
